import Mathlib

set_option maxHeartbeats 1000000
set_option maxRecDepth 4000

/-!
Verification of the myrient-downloader filter engine and its UI glue.

The repository's renderer delegates the actual filtering work to a
main-process handler (the filter-files IPC channel) whose implementation is
not part of this snapshot; the engine stages below are therefore modelled
from the specification text (sections 3, 4 and 8), while the renderer-side
entry point (FilterService.runFilter), the wizard criteria construction
(EventManager), the wizard tag-selection handlers (WizardManager) and the
preset migration (migrateFilterPreset / needsMigration) are shallow
embeddings of the JavaScript sources.
-/

namespace Myrient

/-- Modelled from the spec: tag categories of section 3 (the filter-files
engine is absent from the snapshot). A tag is Region, Language, Other, or a
Revision marker. -/
inductive TagCategory
  | region
  | language
  | other
  | revision
deriving DecidableEq

/-- Modelled from the spec: a Tag is a category together with a string
value (spec section 3). -/
structure Tag where
  category : TagCategory
  value : String
deriving DecidableEq

/-- Modelled from the spec: a FileEntry as produced by the Tag Extractor —
name, href, size, derived base title, ordered tag list, and the derived
numeric revision value (default 0 when absent). -/
structure FileEntry where
  name : String
  href : String
  size : String
  baseTitle : String
  tags : List Tag
  revision : Nat
deriving DecidableEq

/-- Modelled from the spec: revisionMode is one of all, highest, lowest. -/
inductive RevisionMode
  | all
  | highest
  | lowest
deriving DecidableEq

/-- Modelled from the spec: dedupeMode is one of all, priority. -/
inductive DedupeMode
  | all
  | priority
deriving DecidableEq

/-- Modelled from the spec: the FilterCriteria record of section 3 —
include and exclude tag sets per category, include and exclude substring
sets, a revision mode, a dedupe mode and an ordered priority list. -/
structure FilterCriteria where
  includeRegion : List String
  includeLanguage : List String
  includeOther : List String
  excludeRegion : List String
  excludeLanguage : List String
  excludeOther : List String
  includeStrings : List String
  excludeStrings : List String
  revisionMode : RevisionMode
  dedupeMode : DedupeMode
  priorityList : List String
deriving DecidableEq

/-- The include tag set of a criteria object for a given category; the
criteria carry no set for the revision category. -/
def includeSet (c : FilterCriteria) : TagCategory → List String
  | .region => c.includeRegion
  | .language => c.includeLanguage
  | .other => c.includeOther
  | .revision => []

/-- The exclude tag set of a criteria object for a given category; the
criteria carry no set for the revision category. -/
def excludeSet (c : FilterCriteria) : TagCategory → List String
  | .region => c.excludeRegion
  | .language => c.excludeLanguage
  | .other => c.excludeOther
  | .revision => []

/-- Boolean test that the first character list is an initial segment of the
second. -/
def startsWithSeq : List Char → List Char → Bool
  | [], _ => true
  | _ :: _, [] => false
  | a :: as, b :: bs => decide (a = b) && startsWithSeq as bs

/-- Boolean test that the first character list occurs contiguously inside
the second. -/
def containsSeq (needle : List Char) : List Char → Bool
  | [] => startsWithSeq needle []
  | b :: bs => startsWithSeq needle (b :: bs) || containsSeq needle bs

/-- Character-wise lower-casing of a string, used for every
case-insensitive comparison of the engine model. -/
def lowerStr (s : String) : String :=
  ⟨s.data.map Char.toLower⟩

/-- Modelled from the spec: case-insensitive substring match of a needle
against a file name (spec section 4.4, substring matching is
case-insensitive). -/
def strContainsCI (hay needle : String) : Bool :=
  containsSeq (lowerStr needle).data (lowerStr hay).data

/-- Modelled from the spec: the per-category include rule of the Criteria
Filter — a category with an empty include set imposes no constraint,
otherwise the entry must carry at least one tag of that category whose
value is in the set (spec section 4.4). -/
def catIncluded (c : FilterCriteria) (e : FileEntry) (cat : TagCategory) : Bool :=
  (includeSet c cat).isEmpty ||
    e.tags.any fun t => decide (t.category = cat) && decide (t.value ∈ includeSet c cat)

/-- Modelled from the spec: the Criteria Filter keep/drop predicate of
section 4.4 — exclusion is checked first (any tag in the matching exclude
set drops the entry), then the per-category include rules, then the
include/exclude substring rules. -/
def applyCriteria (c : FilterCriteria) (e : FileEntry) : Bool :=
  !(e.tags.any fun t => decide (t.value ∈ excludeSet c t.category)) &&
  catIncluded c e .region &&
  catIncluded c e .language &&
  catIncluded c e .other &&
  (c.includeStrings.isEmpty || c.includeStrings.any fun s => strContainsCI e.name s) &&
  !(c.excludeStrings.any fun s => strContainsCI e.name s)

/-- Modelled from the spec: the Title Grouper key — the base title compared
case-insensitively (spec section 4.3). -/
def titleKey (e : FileEntry) : String :=
  lowerStr e.baseTitle

/-- Modelled from the spec: the non-revision tag set of an entry, the unit
by which revision-families are formed (spec section 4.5). -/
def nonRevTags (e : FileEntry) : List Tag :=
  e.tags.filter fun t => decide (t.category ≠ .revision)

/-- Modelled from the spec: two entries are in the same revision-family
when their non-revision tag sets contain the same tags (spec section 4.5). -/
def sameFamily (a b : FileEntry) : Bool :=
  ((nonRevTags a).all fun t => decide (t ∈ nonRevTags b)) &&
  ((nonRevTags b).all fun t => decide (t ∈ nonRevTags a))

/-- Modelled from the spec: the Revision Resolver of section 4.5, acting on
one title group carried as (original scrape index, entry) pairs. Mode all
passes the group through; highest keeps the entries whose revision is
maximal within their revision-family (ties all kept); lowest is symmetric.
Implemented as an order-preserving filter. -/
def resolveRevisions (mode : RevisionMode) (g : List (Nat × FileEntry)) :
    List (Nat × FileEntry) :=
  match mode with
  | .all => g
  | .highest =>
      g.filter fun p =>
        (g.filter fun q => sameFamily p.2 q.2).all fun q =>
          decide (q.2.revision ≤ p.2.revision)
  | .lowest =>
      g.filter fun p =>
        (g.filter fun q => sameFamily p.2 q.2).all fun q =>
          decide (p.2.revision ≤ q.2.revision)

/-- Modelled from the spec: the tag scan order of the Dedupe Resolver —
the entry's Region tags, then Language tags, then Other tags (spec
section 4.6). -/
def scanTags (e : FileEntry) : List Tag :=
  (e.tags.filter fun t => decide (t.category = .region)) ++
  (e.tags.filter fun t => decide (t.category = .language)) ++
  (e.tags.filter fun t => decide (t.category = .other))

/-- Index of a value in a string list (length of the list when absent). -/
def idxOf (v : String) : List String → Nat
  | [] => 0
  | x :: xs => if v = x then 0 else idxOf v xs + 1

/-- Modelled from the spec: the rank of a candidate — the priority-list
index of the first of its tags (in scan order) whose value appears in the
priority list; an entry with no tag in the list ranks last, modelled as the
list length, which exceeds every real index (spec section 4.6). -/
def rank (pl : List String) (e : FileEntry) : Nat :=
  match (scanTags e).find? (fun t => decide (t.value ∈ pl)) with
  | some t => idxOf t.value pl
  | none => pl.length

/-- Modelled from the spec: the strict ordering used by the Dedupe Resolver
on (index, entry) candidates — rank ascending, then revision descending,
then original scrape order ascending (spec section 4.6). -/
def dedupeLess (pl : List String) (a b : Nat × FileEntry) : Prop :=
  rank pl a.2 < rank pl b.2 ∨
    (rank pl a.2 = rank pl b.2 ∧ b.2.revision < a.2.revision) ∨
    (rank pl a.2 = rank pl b.2 ∧ a.2.revision = b.2.revision ∧ a.1 < b.1)

/-- Modelled from the spec: the comparison step of the Dedupe Resolver —
a candidate strictly beats the current best when its rank is lower, or
ranks tie and its revision is higher; position ties are resolved by the
scan keeping the earlier candidate (spec section 4.6). -/
def priorityBetter (pl : List String) (a b : Nat × FileEntry) : Bool :=
  decide (rank pl a.2 < rank pl b.2) ||
    (decide (rank pl a.2 = rank pl b.2) && decide (b.2.revision < a.2.revision))

/-- Modelled from the spec: the winner scan of the Dedupe Resolver — a left
fold over the group that keeps the current best unless a later candidate is
strictly better, which realises the (rank, revision descending, original
order) minimum (spec section 4.6). -/
def pickPreferred (pl : List String) (h : Nat × FileEntry)
    (t : List (Nat × FileEntry)) : Nat × FileEntry :=
  t.foldl (fun best c => if priorityBetter pl c best then c else best) h

/-- Modelled from the spec: the Dedupe Resolver of section 4.6 — mode all
returns the group unmodified; mode priority keeps exactly the preferred
candidate (an empty group contributes nothing). -/
def resolveDuplicates (mode : DedupeMode) (pl : List String)
    (g : List (Nat × FileEntry)) : List (Nat × FileEntry) :=
  match mode with
  | .all => g
  | .priority =>
      match g with
      | [] => []
      | h :: t => [pickPreferred pl h t]

/-- Modelled from the spec: one title group processed by stages 3 and 4 of
the pipeline — Revision Resolver then Dedupe Resolver (spec section 4.7). -/
def processGroup (c : FilterCriteria) (g : List (Nat × FileEntry)) :
    List (Nat × FileEntry) :=
  resolveDuplicates c.dedupeMode c.priorityList (resolveRevisions c.revisionMode g)

/-- Modelled from the spec: stage 1 of the pipeline — every entry, paired
with its original scrape index, that passes the Criteria Filter (spec
section 4.7). -/
def survivors (c : FilterCriteria) (entries : List FileEntry) :
    List (Nat × FileEntry) :=
  entries.enum.filter fun p => applyCriteria c p.2

/-- Modelled from the spec: stage 2 of the pipeline — the title group of a
surviving entry, the surviving entries sharing its title key, in original
relative order (spec sections 4.3 and 4.7). -/
def groupOf (c : FilterCriteria) (entries : List FileEntry)
    (p : Nat × FileEntry) : List (Nat × FileEntry) :=
  (survivors c entries).filter fun q => decide (titleKey q.2 = titleKey p.2)

/-- Modelled from the spec: a surviving entry is kept when it is among the
entries its processed title group contributes (spec section 4.7). -/
def keepEntry (c : FilterCriteria) (entries : List FileEntry)
    (p : Nat × FileEntry) : Bool :=
  decide (p ∈ processGroup c (groupOf c entries p))

/-- Modelled from the spec: the Filter Pipeline of section 4.7. Stages:
criteria filter, title grouping, per-group revision resolution and
deduplication, then concatenation of the groups' survivors re-sorted into
original scrape order. Because each group's processed output is a subset of
the group and every survivor belongs to exactly one group, that
concatenate-and-resort step is realised here by filtering the ordered
survivor list down to the entries their processed group keeps, which yields
the same list. -/
def run (c : FilterCriteria) (entries : List FileEntry) : List FileEntry :=
  ((survivors c entries).filter (keepEntry c entries)).map Prod.snd

/-- A concrete entry used by the concrete evaluations below. -/
def sampleEntry : FileEntry :=
  { name := "game (usa).zip"
    href := "game.zip"
    size := "1 MiB"
    baseTitle := "game"
    tags := [⟨.region, "USA"⟩]
    revision := 0 }

/-- The identity criteria of spec section 8: every include and exclude set
empty, revision mode all, dedupe mode all. -/
def identityCriteria : FilterCriteria :=
  { includeRegion := []
    includeLanguage := []
    includeOther := []
    excludeRegion := []
    excludeLanguage := []
    excludeOther := []
    includeStrings := []
    excludeStrings := []
    revisionMode := .all
    dedupeMode := .all
    priorityList := [] }

theorem applyCriteria_of_empty (c : FilterCriteria) (e : FileEntry)
    (hir : c.includeRegion = []) (hil : c.includeLanguage = [])
    (hio : c.includeOther = []) (her : c.excludeRegion = [])
    (hel : c.excludeLanguage = []) (heo : c.excludeOther = [])
    (his : c.includeStrings = []) (hes : c.excludeStrings = []) :
    applyCriteria c e = true := by
  have hex : ∀ cat, excludeSet c cat = [] := by
    intro cat; cases cat <;> simp [excludeSet, her, hel, heo]
  have hin : ∀ cat, includeSet c cat = [] := by
    intro cat; cases cat <;> simp [includeSet, hir, hil, hio]
  simp [applyCriteria, catIncluded, hex, hin, his, hes]

theorem filter_eq_self_of_true {α : Type} (p : α → Bool) :
    ∀ l : List α, (∀ a, a ∈ l → p a = true) → l.filter p = l
  | [], _ => rfl
  | a :: l, h => by
    have ha : p a = true := h a (List.mem_cons_self a l)
    simp only [List.filter_cons, ha, if_true]
    rw [filter_eq_self_of_true p l fun b hb => h b (List.mem_cons_of_mem a hb)]

/-- C1. Identity law: with the identity criteria — all include and exclude
tag and string sets empty, revision mode all, dedupe mode all — the
pipeline returns the input list unchanged, same elements in the same
order. -/
theorem run_identity (c : FilterCriteria) (entries : List FileEntry)
    (hir : c.includeRegion = []) (hil : c.includeLanguage = [])
    (hio : c.includeOther = []) (her : c.excludeRegion = [])
    (hel : c.excludeLanguage = []) (heo : c.excludeOther = [])
    (his : c.includeStrings = []) (hes : c.excludeStrings = [])
    (hrev : c.revisionMode = .all) (hded : c.dedupeMode = .all) :
    run c entries = entries := by
  have hsur : survivors c entries = entries.enum := by
    unfold survivors
    exact filter_eq_self_of_true _ _ fun p _ =>
      applyCriteria_of_empty c p.2 hir hil hio her hel heo his hes
  have hproc : ∀ g, processGroup c g = g := by
    intro g
    unfold processGroup
    rw [hrev, hded]
    rfl
  have hkeep : ∀ p, p ∈ survivors c entries → keepEntry c entries p = true := by
    intro p hp
    unfold keepEntry
    rw [hproc]
    have : p ∈ groupOf c entries p := by
      unfold groupOf
      rw [List.mem_filter]
      exact ⟨hp, by simp⟩
    simpa using this
  unfold run
  rw [filter_eq_self_of_true _ _ hkeep, hsur, List.enum_map_snd]

/-- C1 witness: the identity criteria keep a concrete two-entry list
unchanged. -/
theorem run_identity_witness :
    run identityCriteria [sampleEntry, { sampleEntry with name := "other.zip" }] =
      [sampleEntry, { sampleEntry with name := "other.zip" }] :=
  run_identity identityCriteria _ rfl rfl rfl rfl rfl rfl rfl rfl rfl rfl

/-- C2. Subset law: for every criteria object the pipeline output is a
sub-sequence of the input — no entry is invented or duplicated and the kept
entries stay in their original scrape order. -/
theorem run_sublist (c : FilterCriteria) (entries : List FileEntry) :
    List.Sublist (run c entries) entries := by
  have h1 : List.Sublist ((survivors c entries).filter (keepEntry c entries))
      entries.enum :=
    (List.filter_sublist _).trans (List.filter_sublist _)
  have h2 := h1.map Prod.snd
  rwa [List.enum_map_snd] at h2

/-- C2 counterexample to the strict-subset clause: with the identity
criteria the output equals the input, so the output is not in general a
strict subset of the input. -/
theorem run_not_strict_subset :
    run identityCriteria [sampleEntry] = [sampleEntry] := by
  decide

theorem init_le_foldl_max (l : List Nat) (a : Nat) : a ≤ l.foldl Nat.max a := by
  induction l generalizing a with
  | nil => exact Nat.le_refl a
  | cons y ys ih => exact Nat.le_trans (Nat.le_max_left a y) (ih (Nat.max a y))

theorem le_foldl_max (l : List Nat) (a x : Nat) (hx : x ∈ l) :
    x ≤ l.foldl Nat.max a := by
  induction l generalizing a with
  | nil => cases hx
  | cons y ys ih =>
    rcases List.mem_cons.mp hx with h | h
    · subst h
      exact Nat.le_trans (Nat.le_max_right a x) (init_le_foldl_max ys (Nat.max a x))
    · exact ih (Nat.max a y) h

theorem foldl_max_le (l : List Nat) (a b : Nat) (ha : a ≤ b)
    (hl : ∀ x ∈ l, x ≤ b) : l.foldl Nat.max a ≤ b := by
  induction l generalizing a with
  | nil => exact ha
  | cons y ys ih =>
    exact ih (Nat.max a y) (Nat.max_le.mpr ⟨ha, hl y (by simp)⟩)
      (fun x hx => hl x (by simp [hx]))

theorem sameFamily_refl (e : FileEntry) : sameFamily e e = true := by
  unfold sameFamily
  rw [Bool.and_self]
  simp [List.all_eq_true]

/-- The maximum revision value among the revision-family members of an
entry inside one title group. -/
def familyMaxRev (g : List (Nat × FileEntry)) (p : Nat × FileEntry) : Nat :=
  ((g.filter fun q => sameFamily p.2 q.2).map fun q => q.2.revision).foldl Nat.max 0

/-- C4. Revision resolution with mode highest: the result is an
order-preserving sub-sequence of the group, and an entry is kept exactly
when its revision equals the maximum revision of its revision-family, so
entries tied at the maximum are all kept. -/
theorem resolveRevisions_highest (g : List (Nat × FileEntry)) :
    List.Sublist (resolveRevisions .highest g) g ∧
      ∀ p, p ∈ resolveRevisions .highest g ↔
        p ∈ g ∧ p.2.revision = familyMaxRev g p := by
  constructor
  · exact List.filter_sublist g
  · intro p
    rw [show resolveRevisions .highest g
        = g.filter (fun p =>
            (g.filter fun q => sameFamily p.2 q.2).all fun q =>
              decide (q.2.revision ≤ p.2.revision)) from rfl,
      List.mem_filter]
    constructor
    · rintro ⟨hpg, hall⟩
      refine ⟨hpg, ?_⟩
      have hub : familyMaxRev g p ≤ p.2.revision := by
        apply foldl_max_le _ _ _ (Nat.zero_le _)
        intro x hx
        rcases List.mem_map.mp hx with ⟨q, hq, rfl⟩
        have := List.all_eq_true.mp hall q hq
        simpa using this
      have hlb : p.2.revision ≤ familyMaxRev g p := by
        apply le_foldl_max
        apply List.mem_map.mpr
        refine ⟨p, ?_, rfl⟩
        rw [List.mem_filter]
        exact ⟨hpg, sameFamily_refl p.2⟩
      exact Nat.le_antisymm hlb hub
    · rintro ⟨hpg, hmax⟩
      refine ⟨hpg, ?_⟩
      apply List.all_eq_true.mpr
      intro q hq
      have hle : q.2.revision ≤ familyMaxRev g p :=
        le_foldl_max _ _ _ (List.mem_map.mpr ⟨q, hq, rfl⟩)
      rw [← hmax] at hle
      simpa using hle

/-- A criteria object carrying the tag value USA in both the region include
set and the region exclude set. -/
def conflictCriteria : FilterCriteria :=
  { identityCriteria with includeRegion := ["USA"], excludeRegion := ["USA"] }

/-- C5. Exclusion precedence: whenever a tag value sits in both the include
set and the exclude set of the same category, an entry carrying only that
tag is dropped by the Criteria Filter — exclusion wins over inclusion. -/
theorem exclusion_precedence (c : FilterCriteria) (cat : TagCategory)
    (v : String) (e : FileEntry) (hinc : v ∈ includeSet c cat)
    (hexc : v ∈ excludeSet c cat) (htags : e.tags = [⟨cat, v⟩]) :
    applyCriteria c e = false := by
  unfold applyCriteria
  rw [htags]
  simp [hexc]

/-- C5 witness: the concrete USA-tagged entry is dropped under criteria
that both include and exclude the USA region tag. -/
theorem exclusion_precedence_witness :
    applyCriteria conflictCriteria sampleEntry = false :=
  exclusion_precedence conflictCriteria .region "USA" sampleEntry
    (by decide) (by decide) rfl

theorem dedupeLess_trans (pl : List String) (a b c : Nat × FileEntry)
    (h1 : dedupeLess pl a b) (h2 : dedupeLess pl b c) : dedupeLess pl a c := by
  unfold dedupeLess at h1 h2 ⊢
  omega

theorem dedupeLess_of_priorityBetter (pl : List String) (a b : Nat × FileEntry)
    (h : priorityBetter pl a b = true) : dedupeLess pl a b := by
  unfold priorityBetter at h
  simp only [Bool.or_eq_true, Bool.and_eq_true, decide_eq_true_eq] at h
  unfold dedupeLess
  omega

theorem dedupeLess_of_not_priorityBetter (pl : List String) (a b : Nat × FileEntry)
    (h : priorityBetter pl a b = false) (hpos : b.1 < a.1) : dedupeLess pl b a := by
  unfold priorityBetter at h
  simp only [Bool.or_eq_false_iff, Bool.and_eq_false_iff, decide_eq_false_iff_not,
    Bool.and_eq_false_imp, decide_eq_true_eq] at h
  unfold dedupeLess
  omega

theorem pickPreferred_mem (pl : List String) :
    ∀ (t : List (Nat × FileEntry)) (h : Nat × FileEntry),
      pickPreferred pl h t ∈ h :: t
  | [], h => List.mem_singleton.mpr rfl
  | c :: t, h => by
    have step : pickPreferred pl h (c :: t)
        = pickPreferred pl (if priorityBetter pl c h then c else h) t := rfl
    rw [step]
    have ih := pickPreferred_mem pl t (if priorityBetter pl c h then c else h)
    rcases List.mem_cons.mp ih with he | he
    · rw [he]
      by_cases hb : priorityBetter pl c h = true
      · simp [hb]
      · simp [hb]
    · exact List.mem_cons_of_mem _ (List.mem_cons_of_mem _ he)

theorem pickPreferred_min (pl : List String) :
    ∀ (t : List (Nat × FileEntry)) (h : Nat × FileEntry),
      List.Pairwise (fun a b => a.1 < b.1) (h :: t) →
      ∀ e ∈ h :: t, e ≠ pickPreferred pl h t →
        dedupeLess pl (pickPreferred pl h t) e
  | [], h, _, e, he, hne => by
    rcases List.mem_singleton.mp he with rfl
    exact absurd rfl hne
  | c :: t, h, hpw, e, he, hne => by
    have step : pickPreferred pl h (c :: t)
        = pickPreferred pl (if priorityBetter pl c h then c else h) t := rfl
    rw [step] at hne ⊢
    rcases List.pairwise_cons.mp hpw with ⟨hhlt, hct⟩
    rcases List.pairwise_cons.mp hct with ⟨hclt, ht⟩
    have hpw' : List.Pairwise (fun a b => a.1 < b.1)
        ((if priorityBetter pl c h then c else h) :: t) := by
      by_cases hb : priorityBetter pl c h = true
      · simpa [hb] using hct
      · simp only [hb, if_false]
        exact List.pairwise_cons.mpr
          ⟨fun x hx => hhlt x (List.mem_cons_of_mem c hx), ht⟩
    have ih := pickPreferred_min pl t (if priorityBetter pl c h then c else h) hpw'
    have hdisc : ∀ d, d = h ∨ d = c →
        d ≠ (if priorityBetter pl c h then c else h) →
        dedupeLess pl (if priorityBetter pl c h then c else h) d := by
      intro d hd hdne
      by_cases hb : priorityBetter pl c h = true
      · rcases hd with hdh | hdc
        · rw [if_pos hb] at hdne ⊢
          rw [hdh]
          exact dedupeLess_of_priorityBetter pl c h hb
        · rw [if_pos hb] at hdne
          exact absurd hdc hdne
      · have hb' : priorityBetter pl c h = false := by
          revert hb; cases priorityBetter pl c h <;> simp
        rcases hd with hdh | hdc
        · rw [if_neg hb] at hdne
          exact absurd hdh hdne
        · rw [if_neg hb] at hdne ⊢
          rw [hdc]
          exact dedupeLess_of_not_priorityBetter pl c h hb'
            (hhlt c (List.mem_cons_self c t))
    have hbridge : ∀ d, d = h ∨ d = c → d ≠ pickPreferred pl
        (if priorityBetter pl c h then c else h) t →
        dedupeLess pl (pickPreferred pl (if priorityBetter pl c h then c else h) t) d := by
      intro d hd hdne
      by_cases hdh : d = (if priorityBetter pl c h then c else h)
      · rw [hdh]
        exact ih _ (List.mem_cons_self _ t) fun hx => hdne (hdh.trans hx)
      · by_cases hph : pickPreferred pl (if priorityBetter pl c h then c else h) t
            = (if priorityBetter pl c h then c else h)
        · rw [hph]
          exact hdisc d hd hdh
        · exact dedupeLess_trans pl _ _ _
            (ih _ (List.mem_cons_self _ t) fun hx => hph hx.symm)
            (hdisc d hd hdh)
    rcases List.mem_cons.mp he with rfl | he'
    · exact hbridge e (Or.inl rfl) hne
    · rcases List.mem_cons.mp he' with rfl | he''
      · exact hbridge e (Or.inr rfl) hne
      · exact ih e (List.mem_cons_of_mem _ he'') hne

/-- A two-entry sample title group: the USA variant at scrape index 0 and
the Europe variant at scrape index 1. -/
def sampleGroup : List (Nat × FileEntry) :=
  [(0, sampleEntry),
   (1, { sampleEntry with
          name := "game (europe).zip"
          tags := [⟨.region, "Europe"⟩] })]

/-- C3. Priority dedupe selection: with dedupe mode priority a title group
contributes at most one entry, and on a nonempty group (carried with its
strictly increasing original scrape indices) the kept entry is exactly the
minimum of the ordering rank ascending, then revision descending, then
original scrape order ascending, where the rank of a candidate is the
priority-list index of the first of its tags, scanned Region then Language
then Other, that appears in the priority list (absent tags rank last). -/
theorem priority_dedupe_selection (pl : List String)
    (g : List (Nat × FileEntry))
    (hpw : List.Pairwise (fun a b => a.1 < b.1) g) :
    (resolveDuplicates .priority pl g).length ≤ 1 ∧
      ∀ h t, g = h :: t →
        ∃ b, resolveDuplicates .priority pl g = [b] ∧ b ∈ g ∧
          ∀ e ∈ g, e ≠ b → dedupeLess pl b e := by
  constructor
  · cases g with
    | nil => simp [resolveDuplicates]
    | cons h t => simp [resolveDuplicates]
  · intro h t hg
    subst hg
    exact ⟨pickPreferred pl h t, rfl, pickPreferred_mem pl t h,
      pickPreferred_min pl t h hpw⟩

/-- C3 witness: on the concrete USA/Europe group with priority list
Europe before USA, the resolver keeps exactly one entry and it is the
minimum of the dedupe ordering. -/
theorem priority_dedupe_selection_witness :
    (resolveDuplicates .priority ["Europe", "USA"] sampleGroup).length ≤ 1 ∧
      ∀ h t, sampleGroup = h :: t →
        ∃ b, resolveDuplicates .priority ["Europe", "USA"] sampleGroup = [b] ∧
          b ∈ sampleGroup ∧
          ∀ e ∈ sampleGroup, e ≠ b → dedupeLess ["Europe", "USA"] b e :=
  priority_dedupe_selection ["Europe", "USA"] sampleGroup (by decide)

theorem pairwise_fst_lt_enumFrom {α : Type} (n : Nat) (l : List α) :
    List.Pairwise (fun a b => a.1 < b.1) (List.enumFrom n l) := by
  induction l generalizing n with
  | nil => exact List.Pairwise.nil
  | cons x xs ih =>
    refine List.pairwise_cons.mpr ⟨?_, ih (n + 1)⟩
    intro p hp
    have := List.le_fst_of_mem_enumFrom hp
    omega

theorem pairwise_snd_enumFrom {α : Type} {R : α → α → Prop} :
    ∀ (n : Nat) (l : List α), List.Pairwise R l →
      List.Pairwise (fun a b => R a.2 b.2) (List.enumFrom n l)
  | _, [], _ => List.Pairwise.nil
  | n, x :: xs, h => by
    rcases List.pairwise_cons.mp h with ⟨hx, hxs⟩
    refine List.pairwise_cons.mpr ⟨?_, pairwise_snd_enumFrom (n + 1) xs hxs⟩
    intro q hq
    exact hx q.2 (List.snd_mem_of_mem_enumFrom hq)

theorem pairwise_imp_mem {α : Type} {R S : α → α → Prop} :
    ∀ (l : List α), (∀ a b, a ∈ l → b ∈ l → R a b → S a b) →
      List.Pairwise R l → List.Pairwise S l
  | [], _, _ => List.Pairwise.nil
  | x :: xs, h, hpw => by
    rcases List.pairwise_cons.mp hpw with ⟨hx, hxs⟩
    refine List.pairwise_cons.mpr ⟨?_, ?_⟩
    · intro b hb
      exact h x b (List.mem_cons_self x xs) (List.mem_cons_of_mem x hb) (hx b hb)
    · exact pairwise_imp_mem xs
        (fun a b ha hb =>
          h a b (List.mem_cons_of_mem x ha) (List.mem_cons_of_mem x hb)) hxs

theorem filter_eq_singleton_of {α : Type} (p : α → Bool) :
    ∀ (l : List α) (x : α), List.Nodup l → x ∈ l → p x = true →
      (∀ y ∈ l, y ≠ x → p y = false) → l.filter p = [x]
  | [], x, _, hx, _, _ => absurd hx (List.not_mem_nil x)
  | a :: l, x, hnd, hx, hpx, hother => by
    rcases List.nodup_cons.mp hnd with ⟨hna, hndl⟩
    by_cases hax : x = a
    · subst hax
      rw [List.filter_cons_of_pos hpx]
      have : l.filter p = [] := by
        rw [List.filter_eq_nil_iff]
        intro y hy
        have hyx : y ≠ x := fun h => hna (h ▸ hy)
        simp [hother y (List.mem_cons_of_mem x hy) hyx]
      rw [this]
    · have hpa : p a = false :=
        hother a (List.mem_cons_self a l) fun h => hax h.symm
      rw [List.filter_cons_of_neg (by simp [hpa])]
      have hxl : x ∈ l := by
        rcases List.mem_cons.mp hx with h | h
        · exact absurd h hax
        · exact h
      exact filter_eq_singleton_of p l x hndl hxl hpx
        fun y hy => hother y (List.mem_cons_of_mem a hy)

theorem run_mem_applyCriteria (c : FilterCriteria) (entries : List FileEntry)
    (e : FileEntry) (he : e ∈ run c entries) : applyCriteria c e = true := by
  unfold run at he
  rcases List.mem_map.mp he with ⟨p, hp, rfl⟩
  have hps : p ∈ survivors c entries := (List.mem_filter.mp hp).1
  unfold survivors at hps
  exact (List.mem_filter.mp hps).2

theorem processGroup_len_le_one (c : FilterCriteria)
    (hd : c.dedupeMode = .priority) (g : List (Nat × FileEntry)) :
    (processGroup c g).length ≤ 1 := by
  unfold processGroup
  rw [hd]
  cases resolveRevisions c.revisionMode g <;> simp [resolveDuplicates]

theorem keep_key_unique (c : FilterCriteria) (entries : List FileEntry)
    (hd : c.dedupeMode = .priority) (p q : Nat × FileEntry)
    (hp : p ∈ (survivors c entries).filter (keepEntry c entries))
    (hq : q ∈ (survivors c entries).filter (keepEntry c entries))
    (hk : titleKey p.2 = titleKey q.2) : p = q := by
  rcases List.mem_filter.mp hp with ⟨_, hpk⟩
  rcases List.mem_filter.mp hq with ⟨_, hqk⟩
  have hpm : p ∈ processGroup c (groupOf c entries p) := of_decide_eq_true hpk
  have hqm : q ∈ processGroup c (groupOf c entries q) := of_decide_eq_true hqk
  have hgeq : groupOf c entries p = groupOf c entries q := by
    unfold groupOf
    apply List.filter_congr
    intro a _
    rw [hk]
  rw [hgeq] at hpm
  have hlen := processGroup_len_le_one c hd (groupOf c entries q)
  cases hpg : processGroup c (groupOf c entries q) with
  | nil =>
    rw [hpg] at hpm
    cases hpm
  | cons x xs =>
    rw [hpg] at hpm hqm hlen
    cases xs with
    | cons y ys => simp at hlen
    | nil =>
      rw [List.mem_singleton.mp hpm, List.mem_singleton.mp hqm]

theorem run_pairwise_key (c : FilterCriteria) (entries : List FileEntry)
    (hd : c.dedupeMode = .priority) :
    List.Pairwise (fun a b => titleKey a ≠ titleKey b) (run c entries) := by
  unfold run
  apply List.pairwise_map.mpr
  have hsub : List.Sublist ((survivors c entries).filter (keepEntry c entries))
      (List.enumFrom 0 entries) := by
    have h1 : List.Sublist ((survivors c entries).filter (keepEntry c entries))
        entries.enum :=
      (List.filter_sublist _).trans (List.filter_sublist _)
    exact h1
  have hfst : List.Pairwise (fun a b => a.1 < b.1)
      ((survivors c entries).filter (keepEntry c entries)) :=
    List.Pairwise.sublist hsub (pairwise_fst_lt_enumFrom 0 entries)
  apply pairwise_imp_mem _ _ hfst
  intro a b ha hb hlt hkeq
  have : a = b := keep_key_unique c entries hd a b ha hb hkeq
  rw [this] at hlt
  exact Nat.lt_irrefl _ hlt

theorem processGroup_singleton (c : FilterCriteria) (p : Nat × FileEntry) :
    processGroup c [p] = [p] := by
  unfold processGroup
  have hrev : resolveRevisions c.revisionMode [p] = [p] := by
    cases c.revisionMode <;>
      simp [resolveRevisions, sameFamily_refl]
  rw [hrev]
  cases c.dedupeMode <;> simp [resolveDuplicates, pickPreferred]

theorem run_fixed (c : FilterCriteria) (l : List FileEntry)
    (hall : ∀ e ∈ l, applyCriteria c e = true)
    (hkeys : List.Pairwise (fun a b => titleKey a ≠ titleKey b) l) :
    run c l = l := by
  have hsur : survivors c l = l.enum := by
    unfold survivors
    exact filter_eq_self_of_true _ _ fun p hp =>
      hall p.2 (List.snd_mem_of_mem_enumFrom hp)
  have hnd : List.Nodup l.enum :=
    (pairwise_fst_lt_enumFrom 0 l).imp fun h heq => by
      rw [heq] at h
      exact Nat.lt_irrefl _ h
  have hkey2 : List.Pairwise (fun a b : Nat × FileEntry =>
      titleKey a.2 ≠ titleKey b.2) l.enum :=
    pairwise_snd_enumFrom 0 l hkeys
  have hkeyall := hkey2.forall fun a b h => fun heq => h heq.symm
  have hgrp : ∀ p ∈ l.enum, groupOf c l p = [p] := by
    intro p hp
    unfold groupOf
    rw [hsur]
    apply filter_eq_singleton_of _ _ _ hnd hp (by simp)
    intro q hq hqp
    have hne : titleKey q.2 ≠ titleKey p.2 := hkeyall hq hp hqp
    simpa using hne
  have hkeep : ∀ p, p ∈ survivors c l → keepEntry c l p = true := by
    intro p hp
    rw [hsur] at hp
    unfold keepEntry
    rw [hgrp p hp, processGroup_singleton]
    simp
  unfold run
  rw [filter_eq_self_of_true _ _ hkeep, hsur, List.enum_map_snd]

/-- C6. Idempotence with priority dedupe: re-running the pipeline with the
same criteria on its own output returns that output unchanged, because
every output entry passes the criteria filter again and each title group of
the output is a singleton that both resolvers fix. -/
theorem run_idempotent (c : FilterCriteria) (entries : List FileEntry)
    (hd : c.dedupeMode = .priority) :
    run c (run c entries) = run c entries :=
  run_fixed c (run c entries)
    (fun e he => run_mem_applyCriteria c entries e he)
    (run_pairwise_key c entries hd)

/-- A criteria object with dedupe mode priority and the Europe-first
priority list, all other fields as in the identity criteria. -/
def priorityCriteria : FilterCriteria :=
  { identityCriteria with dedupeMode := .priority, priorityList := ["Europe", "USA"] }

/-- The Europe variant of the sample entry. -/
def europeEntry : FileEntry :=
  { sampleEntry with name := "game (europe).zip", tags := [⟨.region, "Europe"⟩] }

/-- C6 witness: idempotence at a concrete two-variant entry list under the
priority criteria. -/
theorem run_idempotent_witness :
    run priorityCriteria (run priorityCriteria [sampleEntry, europeEntry]) =
      run priorityCriteria [sampleEntry, europeEntry] :=
  run_idempotent priorityCriteria [sampleEntry, europeEntry] rfl

/-- The per-category tag state of the wizard (the StateService includeTags
and excludeTags objects hold one list per category: region, language,
other). -/
structure TagCategories where
  region : List String
  language : List String
  other : List String
deriving DecidableEq

/-- The flat criteria object the wizard UI sends over IPC (EventManager
lines 234-240): flat include and exclude tag arrays, raw mode strings and
the priority list; no substring fields exist on it. -/
structure WizardFilters where
  include_tags : List String
  exclude_tags : List String
  rev_mode : String
  dedupe_mode : String
  priority_list : List String
deriving DecidableEq

/-- The criteria object built by the wizard run button (EventManager lines
229-240): Object.values of each tag state followed by flat() concatenates
the three category lists into one flat array. -/
def buildWizardFilters (includeTags excludeTags : TagCategories)
    (revMode dedupeMode : String) (priorityList : List String) : WizardFilters :=
  { include_tags := includeTags.region ++ includeTags.language ++ includeTags.other
    exclude_tags := excludeTags.region ++ excludeTags.language ++ excludeTags.other
    rev_mode := revMode
    dedupe_mode := dedupeMode
    priority_list := priorityList }

/-- FilterService.runFilter's default-filter test (WindowService.js lines
75-79): both flat tag arrays empty, both mode strings equal to all, and an
empty priority list. -/
def isDefaultFilter (f : WizardFilters) : Bool :=
  f.include_tags.isEmpty && f.exclude_tags.isEmpty &&
  decide (f.rev_mode = "all") && decide (f.dedupe_mode = "all") &&
  f.priority_list.isEmpty

/-- FilterService.runFilter (WindowService.js lines 74-90): on the default
filter the full file list is returned directly; otherwise the criteria are
forwarded, without any validation, to the main-process filter-files
handler, whose response — ok data, or an error that is rethrown — is
passed through. The handler is not part of the snapshot, so its response
is a parameter. -/
def runFilter (allFiles : List FileEntry) (filters : WizardFilters)
    (backendResult : Except String (List FileEntry)) :
    Except String (List FileEntry) :=
  if isDefaultFilter filters then .ok allFiles else backendResult

/-- Field values occurring in serialized criteria objects, used to state
shape properties: a flat string array, a raw string, or a per-category
mapping with region, language and other fields. -/
inductive FieldVal
  | list (xs : List String)
  | str (s : String)
  | catMap (region language other : List String)
deriving DecidableEq

/-- The key-value field list of the wizard criteria object, mirroring the
JavaScript object literal of EventManager lines 234-240. -/
def wizardFilterFields (f : WizardFilters) : List (String × FieldVal) :=
  [("include_tags", .list f.include_tags),
   ("exclude_tags", .list f.exclude_tags),
   ("rev_mode", .str f.rev_mode),
   ("dedupe_mode", .str f.dedupe_mode),
   ("priority_list", .list f.priority_list)]

/-- Modelled from the spec: the section-6 criteria contract shape —
include_tags and exclude_tags are per-category mappings with region,
language and other fields, and include_strings and exclude_strings fields
are present. -/
def specCriteriaShape (fields : List (String × FieldVal)) : Bool :=
  (fields.any fun kv =>
    decide (kv.1 = "include_tags") &&
      match kv.2 with | .catMap _ _ _ => true | _ => false) &&
  (fields.any fun kv =>
    decide (kv.1 = "exclude_tags") &&
      match kv.2 with | .catMap _ _ _ => true | _ => false) &&
  (fields.any fun kv => decide (kv.1 = "include_strings")) &&
  (fields.any fun kv => decide (kv.1 = "exclude_strings"))

/-- The criteria object built by the other generation of the wizard
run-button handler (UIManager.addEventListeners, UIManager.js lines
337-346): the same flat include and exclude tag arrays, plus the
include_strings and exclude_strings lists taken from state. -/
structure UIWizardFilters where
  include_tags : List String
  exclude_tags : List String
  include_strings : List String
  exclude_strings : List String
  rev_mode : String
  dedupe_mode : String
  priority_list : List String
deriving DecidableEq

/-- The filters object of the UIManager run-button handler (UIManager.js
lines 328-346): Object.values of each tag state followed by flat()
concatenates the three category lists, and the substring lists are copied
from the includeStrings and excludeStrings state entries. -/
def buildUIWizardFilters (includeTags excludeTags : TagCategories)
    (includeStrings excludeStrings : List String)
    (revMode dedupeMode : String) (priorityList : List String) : UIWizardFilters :=
  { include_tags := includeTags.region ++ includeTags.language ++ includeTags.other
    exclude_tags := excludeTags.region ++ excludeTags.language ++ excludeTags.other
    include_strings := includeStrings
    exclude_strings := excludeStrings
    rev_mode := revMode
    dedupe_mode := dedupeMode
    priority_list := priorityList }

/-- The key-value field list of the UIManager criteria object, mirroring
the JavaScript object literal of UIManager.js lines 338-346. -/
def uiWizardFilterFields (f : UIWizardFilters) : List (String × FieldVal) :=
  [("include_tags", .list f.include_tags),
   ("exclude_tags", .list f.exclude_tags),
   ("include_strings", .list f.include_strings),
   ("exclude_strings", .list f.exclude_strings),
   ("rev_mode", .str f.rev_mode),
   ("dedupe_mode", .str f.dedupe_mode),
   ("priority_list", .list f.priority_list)]

/-- The old-format filter settings read by migrateFilterPreset (part_004
lines 19-34); absent fields are none. -/
structure OldFilterSettings where
  includedRegions : Option (List String)
  includedLanguages : Option (List String)
  excludedRegions : Option (List String)
  excludedLanguages : Option (List String)
  includeStrings : Option (List String)
  excludeStrings : Option (List String)
  releaseRevisionMode : Option String
  deduplicateMode : Option String
  releaseNamePriorityList : Option (List String)
deriving DecidableEq

/-- The current filter-settings shape produced by migrateFilterPreset
(part_004 lines 19-35). -/
structure NewFilterSettings where
  include_tags : TagCategories
  exclude_tags : TagCategories
  include_strings : List String
  exclude_strings : List String
  rev_mode : String
  dedupe_mode : String
  priority_list : List String
deriving DecidableEq

/-- A filter preset as stored on disk: the union of old-format and
new-format fields, each optional because a JavaScript object may lack any
of them; filterSettings holds either shape. -/
structure Preset where
  version : Option Nat
  name : Option String
  archiveHref : Option String
  directoryHref : Option String
  archiveName : Option String
  directoryName : Option String
  fullPath : Option String
  pathDisplayName : Option String
  filterSettings : Option (OldFilterSettings ⊕ NewFilterSettings)
deriving DecidableEq

/-- CURRENT_FILTER_PRESET_VERSION (part_004 line 1). -/
def CURRENT_FILTER_PRESET_VERSION : Nat := 2

/-- JavaScript string-or-default: the or-operator falls back both on an
absent value and on the empty string, since both are falsy. -/
def jsOrStr (o : Option String) (dflt : String) : String :=
  match o with
  | some s => if s = "" then dflt else s
  | none => dflt

/-- A possibly-absent JavaScript string coerced to a string: undefined
prints as the word undefined. -/
def strOrUndef (o : Option String) : String :=
  o.getD "undefined"

/-- JavaScript + on two possibly-absent strings: string concatenation with
undefined coerced to the word undefined when a string operand is present;
two absent operands add numerically to NaN, rendered here as that
string. -/
def jsAddStr (a b : Option String) : String :=
  match a, b with
  | none, none => "NaN"
  | _, _ => strOrUndef a ++ strOrUndef b

/-- Reading the old-format keys from whatever filterSettings holds: a
new-shape settings object has none of the old keys, so every read yields
an absent value. -/
def oldView : OldFilterSettings ⊕ NewFilterSettings → OldFilterSettings
  | .inl o => o
  | .inr _ => ⟨none, none, none, none, none, none, none, none, none⟩

/-- migrateFilterPreset (part_004 lines 8-40): a preset already carrying
the current version is returned as is; otherwise a new-format preset is
built from the old fields — absent tag and string lists default to empty,
an absent or empty releaseRevisionMode defaults to highest and
deduplicateMode to priority — and _version 2 is stamped on. Reading the
old keys off an absent filterSettings throws in JavaScript, modelled as an
error value. -/
def migrateFilterPreset (p : Preset) : Except String Preset :=
  if p.version = some CURRENT_FILTER_PRESET_VERSION then .ok p
  else
    match p.filterSettings with
    | none => .error "TypeError: cannot read properties of undefined"
    | some fs =>
        let old := oldView fs
        .ok { version := some CURRENT_FILTER_PRESET_VERSION
              name := p.name
              archiveHref := none
              directoryHref := none
              archiveName := none
              directoryName := none
              fullPath := some (jsAddStr p.archiveHref p.directoryHref)
              pathDisplayName :=
                some (strOrUndef p.archiveName ++ " / " ++ strOrUndef p.directoryName)
              filterSettings := some (.inr
                { include_tags :=
                    ⟨old.includedRegions.getD [], old.includedLanguages.getD [], []⟩
                  exclude_tags :=
                    ⟨old.excludedRegions.getD [], old.excludedLanguages.getD [], []⟩
                  include_strings := old.includeStrings.getD []
                  exclude_strings := old.excludeStrings.getD []
                  rev_mode := jsOrStr old.releaseRevisionMode "highest"
                  dedupe_mode := jsOrStr old.deduplicateMode "priority"
                  priority_list := old.releaseNamePriorityList.getD [] }) }

/-- needsMigration (part_004 lines 48-56): false when _version is present
and current; otherwise the preset is considered old-format when it still
carries archiveHref or directoryHref. -/
def needsMigration (f : Preset) : Bool :=
  if f.version.isSome && decide (f.version = some CURRENT_FILTER_PRESET_VERSION) then
    false
  else
    f.archiveHref.isSome || f.directoryHref.isSome

/-- JavaScript Set add: appends when absent, keeping insertion order. -/
def setAdd (s : List String) (x : String) : List String :=
  if decide (x ∈ s) then s else s ++ [x]

/-- JavaScript Set delete: removes the value. -/
def setDelete (s : List String) (x : String) : List String :=
  s.filter fun y => decide (y ≠ x)

/-- One category's stored include and exclude tag lists (the StateService
includeTags and excludeTags entries for that category). -/
structure TagSelState where
  inc : List String
  exc : List String
deriving DecidableEq

/-- Which of the two checkbox lists of a category a click targets. -/
inductive TagListKind
  | incl
  | excl
deriving DecidableEq

/-- handleTagClick of the first WizardManager version (lines 155-208):
checking a box adds the tag to its own set and removes it from the
opposing set when present; unchecking removes it from its own set only. -/
def handleTagClickV1 (ty : TagListKind) (checked : Bool) (tag : String)
    (s : TagSelState) : TagSelState :=
  match ty, checked with
  | .incl, true =>
      { inc := setAdd s.inc tag
        exc := if decide (tag ∈ s.exc) then setDelete s.exc tag else s.exc }
  | .incl, false => { s with inc := setDelete s.inc tag }
  | .excl, true =>
      { inc := if decide (tag ∈ s.inc) then setDelete s.inc tag else s.inc
        exc := setAdd s.exc tag }
  | .excl, false => { s with exc := setDelete s.exc tag }

/-- One iteration of massUpdateTags of the first WizardManager version
(lines 213-266): selecting adds the tag to its own set only when the
opposing set does not hold it, deselecting removes it; a final cleanup
removes the tag from the opposing set should both ever hold it. -/
def massStepV1 (ty : TagListKind) (shouldSelect : Bool) (s : TagSelState)
    (tag : String) : TagSelState :=
  let s1 :=
    if shouldSelect then
      match ty with
      | .incl => if decide (tag ∈ s.exc) then s else { s with inc := setAdd s.inc tag }
      | .excl => if decide (tag ∈ s.inc) then s else { s with exc := setAdd s.exc tag }
    else
      match ty with
      | .incl => { s with inc := setDelete s.inc tag }
      | .excl => { s with exc := setDelete s.exc tag }
  match ty with
  | .incl =>
      if decide (tag ∈ s1.inc) && decide (tag ∈ s1.exc) then
        { s1 with exc := setDelete s1.exc tag }
      else s1
  | .excl =>
      if decide (tag ∈ s1.exc) && decide (tag ∈ s1.inc) then
        { s1 with inc := setDelete s1.inc tag }
      else s1

/-- massUpdateTags of the first WizardManager version: the fold of the
per-checkbox step over the currently visible tags. -/
def massUpdateTagsV1 (ty : TagListKind) (shouldSelect : Bool)
    (visible : List String) (s : TagSelState) : TagSelState :=
  visible.foldl (massStepV1 ty shouldSelect) s

/-- The private _handleTagClick of the second WizardManager version (lines
691-713): toggling only adds to or removes from the clicked list's own
set. -/
def handleTagClickV2 (ty : TagListKind) (checked : Bool) (tag : String)
    (s : TagSelState) : TagSelState :=
  match ty, checked with
  | .incl, true => { s with inc := setAdd s.inc tag }
  | .incl, false => { s with inc := setDelete s.inc tag }
  | .excl, true => { s with exc := setAdd s.exc tag }
  | .excl, false => { s with exc := setDelete s.exc tag }

/-- One iteration of the private _massUpdateTags of the second
WizardManager version (lines 722-741): selecting adds only tags the
opposing set does not hold; deselecting removes. -/
def massStepV2 (ty : TagListKind) (shouldSelect : Bool) (s : TagSelState)
    (tag : String) : TagSelState :=
  if shouldSelect then
    match ty with
    | .incl => if decide (tag ∈ s.exc) then s else { s with inc := setAdd s.inc tag }
    | .excl => if decide (tag ∈ s.inc) then s else { s with exc := setAdd s.exc tag }
  else
    match ty with
    | .incl => { s with inc := setDelete s.inc tag }
    | .excl => { s with exc := setDelete s.exc tag }

/-- _massUpdateTags of the second WizardManager version: the fold of the
per-checkbox step over the currently visible tags. -/
def massUpdateTagsV2 (ty : TagListKind) (shouldSelect : Bool)
    (visible : List String) (s : TagSelState) : TagSelState :=
  visible.foldl (massStepV2 ty shouldSelect) s

/-- A tag-selection operation available in the wizard UI, across both
WizardManager versions: a single checkbox toggle or a mass select or
deselect over the currently visible tags of one category. -/
inductive WizardOp
  | clickV1 (ty : TagListKind) (checked : Bool) (tag : String)
  | massV1 (ty : TagListKind) (shouldSelect : Bool) (visible : List String)
  | clickV2 (ty : TagListKind) (checked : Bool) (tag : String)
  | massV2 (ty : TagListKind) (shouldSelect : Bool) (visible : List String)

/-- The state transition of one wizard tag-selection operation. -/
def applyWizardOp : WizardOp → TagSelState → TagSelState
  | .clickV1 ty ck tag, s => handleTagClickV1 ty ck tag s
  | .massV1 ty sel vis, s => massUpdateTagsV1 ty sel vis s
  | .clickV2 ty ck tag, s => handleTagClickV2 ty ck tag s
  | .massV2 ty sel vis, s => massUpdateTagsV2 ty sel vis s

/-- The clickability constraint renderTagItem enforces in both
WizardManager versions: the include checkbox of a tag held by the exclude
set — and symmetrically — is rendered disabled with pointer events off, so
a click toggle can only target a tag absent from the opposing set; the
mass-update buttons are always available. -/
def wizardOpEnabled : WizardOp → TagSelState → Prop
  | .clickV1 ty _ tag, s =>
      match ty with
      | .incl => tag ∉ s.exc
      | .excl => tag ∉ s.inc
  | .clickV2 ty _ tag, s =>
      match ty with
      | .incl => tag ∉ s.exc
      | .excl => tag ∉ s.inc
  | .massV1 _ _ _, _ => True
  | .massV2 _ _ _, _ => True

/-- The include and exclude lists of one category share no tag value. -/
def disjointTags (s : TagSelState) : Bool :=
  s.inc.all fun x => decide (x ∉ s.exc)

/-- A concrete malformed criteria object: rev_mode outside the enumerated
set. -/
def bogusFilters : WizardFilters :=
  { include_tags := []
    exclude_tags := []
    rev_mode := "bogus"
    dedupe_mode := "all"
    priority_list := [] }

/-- A concrete old-format preset lacking _version, releaseRevisionMode and
deduplicateMode. -/
def oldPreset : Preset :=
  { version := none
    name := some "snes set"
    archiveHref := some "https://example.org/"
    directoryHref := some "snes/"
    archiveName := some "Example"
    directoryName := some "SNES"
    fullPath := none
    pathDisplayName := none
    filterSettings := some (.inl
      { includedRegions := some ["USA"]
        includedLanguages := none
        excludedRegions := none
        excludedLanguages := none
        includeStrings := none
        excludeStrings := none
        releaseRevisionMode := none
        deduplicateMode := none
        releaseNamePriorityList := none }) }

/-- The migrated form of the concrete old-format preset. -/
def migratedPreset : Preset :=
  { version := some CURRENT_FILTER_PRESET_VERSION
    name := some "snes set"
    archiveHref := none
    directoryHref := none
    archiveName := none
    directoryName := none
    fullPath := some "https://example.org/snes/"
    pathDisplayName := some "Example / SNES"
    filterSettings := some (.inr
      { include_tags := ⟨["USA"], [], []⟩
        exclude_tags := ⟨[], [], []⟩
        include_strings := []
        exclude_strings := []
        rev_mode := "highest"
        dedupe_mode := "priority"
        priority_list := [] }) }

theorem migrate_version_fast (p : Preset)
    (hv : p.version = some CURRENT_FILTER_PRESET_VERSION) :
    migrateFilterPreset p = .ok p := by
  unfold migrateFilterPreset
  rw [if_pos hv]

theorem migrate_ok_version (p q : Preset) (h : migrateFilterPreset p = .ok q) :
    q.version = some CURRENT_FILTER_PRESET_VERSION := by
  unfold migrateFilterPreset at h
  by_cases hv : p.version = some CURRENT_FILTER_PRESET_VERSION
  · rw [if_pos hv] at h
    cases h
    exact hv
  · rw [if_neg hv] at h
    cases hfs : p.filterSettings with
    | none =>
      rw [hfs] at h
      cases h
    | some fs =>
      rw [hfs] at h
      cases h
      rfl

/-- C10. Preset migration is idempotent: re-migrating the result of a
migration is a no-op (errors propagating through bind), every
successfully migrated preset carries _version 2, and needsMigration is
false on it, so a migrated preset is never migrated again. -/
theorem migrate_idempotent (p : Preset) :
    (migrateFilterPreset p).bind migrateFilterPreset = migrateFilterPreset p ∧
      ∀ q, migrateFilterPreset p = .ok q →
        q.version = some CURRENT_FILTER_PRESET_VERSION ∧
          needsMigration q = false := by
  constructor
  · cases hm : migrateFilterPreset p with
    | error e => rfl
    | ok q =>
      show migrateFilterPreset q = .ok q
      exact migrate_version_fast q (migrate_ok_version p q hm)
  · intro q hq
    have hv := migrate_ok_version p q hq
    refine ⟨hv, ?_⟩
    unfold needsMigration
    rw [hv]
    simp [CURRENT_FILTER_PRESET_VERSION]

/-- C10 witness: the concrete old-format preset migrates to the concrete
current-format preset, which carries _version 2 and no longer needs
migration. -/
theorem migrate_idempotent_witness :
    migrateFilterPreset oldPreset = .ok migratedPreset ∧
      migratedPreset.version = some CURRENT_FILTER_PRESET_VERSION ∧
      needsMigration migratedPreset = false :=
  ⟨rfl, (migrate_idempotent oldPreset).2 migratedPreset rfl⟩

/-- C7 counterexample: the renderer entry point does not reject a rev_mode
outside the enumerated set — it hands the unvalidated criteria to the
backend and returns whatever comes back — and preset migration silently
substitutes the defaults highest and priority for absent modes instead of
erroring. -/
theorem runFilter_no_validation :
    bogusFilters.rev_mode ∉ ["all", "highest", "lowest"] ∧
      runFilter [] bogusFilters (.ok []) = .ok [] ∧
      migrateFilterPreset oldPreset = .ok migratedPreset ∧
      (∃ s, migratedPreset.filterSettings = some (.inr s) ∧
        s.rev_mode = "highest" ∧ s.dedupe_mode = "priority") := by
  refine ⟨by decide, rfl, rfl, ?_⟩
  exact ⟨_, rfl, rfl, rfl⟩

/-- C7 (amended). The visible pipeline entry point performs no criteria
validation: every non-default criteria object — in particular any whose
rev_mode lies outside the enumerated set — is forwarded and the backend
response returned unchanged; and preset migration substitutes the defaults
highest and priority for absent revision and dedupe modes rather than
rejecting the preset. -/
theorem runFilter_forwards_unvalidated (allFiles : List FileEntry)
    (filters : WizardFilters) (backend : Except String (List FileEntry))
    (h : isDefaultFilter filters = false) :
    runFilter allFiles filters backend = backend ∧
      ∀ old : OldFilterSettings, old.releaseRevisionMode = none →
        old.deduplicateMode = none →
        ∀ p q : Preset, p.version ≠ some CURRENT_FILTER_PRESET_VERSION →
          p.filterSettings = some (.inl old) →
          migrateFilterPreset p = .ok q →
          ∃ s, q.filterSettings = some (.inr s) ∧
            s.rev_mode = "highest" ∧ s.dedupe_mode = "priority" := by
  constructor
  · unfold runFilter
    rw [h]
    rfl
  · intro old hrm hdm p q hv hfs hm
    unfold migrateFilterPreset at hm
    rw [if_neg hv, hfs] at hm
    cases hm
    exact ⟨_, rfl, by simp [oldView, jsOrStr, hrm], by simp [oldView, jsOrStr, hdm]⟩

/-- C7 amended-claim witness: the concrete bogus criteria object is not
the default filter and the entry point returns the backend response for it
unchanged. -/
theorem runFilter_forwards_unvalidated_witness :
    runFilter [sampleEntry] bogusFilters (.ok []) = .ok [] :=
  (runFilter_forwards_unvalidated [sampleEntry] bogusFilters (.ok [])
    (by decide)).1

/-- C8 counterexample: neither generation of the wizard run-button
criteria object (here built for an empty selection) satisfies the
section-6 per-category criteria shape — the EventManager object has flat
tag arrays and no substring fields, and the UIManager object, though it
carries include_strings and exclude_strings, still has flat tag arrays
instead of per-category mappings. -/
theorem wizard_filters_not_spec_shape :
    specCriteriaShape (wizardFilterFields
      (buildWizardFilters ⟨[], [], []⟩ ⟨[], [], []⟩ "all" "all" [])) = false ∧
      specCriteriaShape (uiWizardFilterFields
        (buildUIWizardFilters ⟨[], [], []⟩ ⟨[], [], []⟩ [] [] "all" "all" []))
        = false := by
  decide

/-- C8 (amended). Every criteria object the wizard UI passes to the
pipeline carries include_tags and exclude_tags as flat arrays — the three
per-category lists concatenated — never as per-category region, language,
other mappings; the include_strings and exclude_strings fields are present
on the UIManager generation of the run-button handler but absent from the
EventManager generation. -/
theorem wizard_filters_flat (inc exc : TagCategories)
    (istr estr : List String) (rm dm : String) (pl : List String) :
    (buildWizardFilters inc exc rm dm pl).include_tags
        = inc.region ++ inc.language ++ inc.other ∧
      (buildWizardFilters inc exc rm dm pl).exclude_tags
        = exc.region ++ exc.language ++ exc.other ∧
      ((wizardFilterFields (buildWizardFilters inc exc rm dm pl)).any fun kv =>
        decide (kv.1 = "include_strings") || decide (kv.1 = "exclude_strings"))
        = false ∧
      (buildUIWizardFilters inc exc istr estr rm dm pl).include_tags
        = inc.region ++ inc.language ++ inc.other ∧
      (buildUIWizardFilters inc exc istr estr rm dm pl).exclude_tags
        = exc.region ++ exc.language ++ exc.other ∧
      ((uiWizardFilterFields (buildUIWizardFilters inc exc istr estr rm dm pl)).any
          fun kv => decide (kv.1 = "include_strings")) = true ∧
      ((uiWizardFilterFields (buildUIWizardFilters inc exc istr estr rm dm pl)).any
          fun kv => decide (kv.1 = "exclude_strings")) = true ∧
      ((uiWizardFilterFields (buildUIWizardFilters inc exc istr estr rm dm pl)).any
          fun kv => match kv.2 with | .catMap _ _ _ => true | _ => false) = false :=
  ⟨rfl, rfl, rfl, rfl, rfl, rfl, rfl, rfl⟩

theorem mem_setAdd (s : List String) (t x : String) :
    x ∈ setAdd s t ↔ x ∈ s ∨ x = t := by
  unfold setAdd
  by_cases h : t ∈ s
  · rw [if_pos (by simpa using h)]
    constructor
    · exact Or.inl
    · rintro (h1 | rfl)
      · exact h1
      · exact h
  · rw [if_neg (by simpa using h)]
    simp

theorem mem_setDelete (s : List String) (t x : String) :
    x ∈ setDelete s t ↔ x ∈ s ∧ x ≠ t := by
  unfold setDelete
  simp [List.mem_filter]

theorem disjoint_iff (s : TagSelState) :
    disjointTags s = true ↔ ∀ x ∈ s.inc, x ∉ s.exc := by
  simp [disjointTags, List.all_eq_true]

theorem disjoint_add_del (inc exc : List String) (tag : String)
    (h : ∀ x ∈ inc, x ∉ exc) :
    ∀ x ∈ setAdd inc tag, x ∉ setDelete exc tag := by
  intro x hx hmem
  rcases (mem_setDelete exc tag x).mp hmem with ⟨hxe, hxt⟩
  rcases (mem_setAdd inc tag x).mp hx with hxi | rfl
  · exact h x hxi hxe
  · exact hxt rfl

theorem disjoint_add_same (inc exc : List String) (tag : String)
    (hni : tag ∉ exc) (h : ∀ x ∈ inc, x ∉ exc) :
    ∀ x ∈ setAdd inc tag, x ∉ exc := by
  intro x hx
  rcases (mem_setAdd inc tag x).mp hx with hxi | rfl
  · exact h x hxi
  · exact hni

theorem disjoint_del_left (inc exc : List String) (tag : String)
    (h : ∀ x ∈ inc, x ∉ exc) :
    ∀ x ∈ setDelete inc tag, x ∉ exc := by
  intro x hx
  exact h x ((mem_setDelete inc tag x).mp hx).1

theorem disjoint_del_right (inc exc : List String) (tag : String)
    (h : ∀ x ∈ inc, x ∉ exc) :
    ∀ x ∈ inc, x ∉ setDelete exc tag := by
  intro x hx hmem
  exact h x hx ((mem_setDelete exc tag x).mp hmem).1

theorem disjoint_del_add (inc exc : List String) (tag : String)
    (h : ∀ x ∈ inc, x ∉ exc) :
    ∀ x ∈ setDelete inc tag, x ∉ setAdd exc tag := by
  intro x hx hmem
  rcases (mem_setDelete inc tag x).mp hx with ⟨hxi, hxt⟩
  rcases (mem_setAdd exc tag x).mp hmem with hxe | rfl
  · exact h x hxi hxe
  · exact hxt rfl

theorem disjoint_same_add (inc exc : List String) (tag : String)
    (hni : tag ∉ inc) (h : ∀ x ∈ inc, x ∉ exc) :
    ∀ x ∈ inc, x ∉ setAdd exc tag := by
  intro x hx hmem
  rcases (mem_setAdd exc tag x).mp hmem with hxe | rfl
  · exact h x hx hxe
  · exact hni hx

theorem handleTagClickV1_disjoint (ty : TagListKind) (ck : Bool) (tag : String)
    (s : TagSelState) (h : disjointTags s = true) :
    disjointTags (handleTagClickV1 ty ck tag s) = true := by
  rw [disjoint_iff] at h ⊢
  cases ty <;> cases ck <;> simp only [handleTagClickV1]
  · exact disjoint_del_left s.inc s.exc tag h
  · by_cases he : tag ∈ s.exc
    · rw [if_pos (by simpa using he)]
      exact disjoint_add_del s.inc s.exc tag h
    · rw [if_neg (by simpa using he)]
      exact disjoint_add_same s.inc s.exc tag he h
  · exact disjoint_del_right s.inc s.exc tag h
  · by_cases hi : tag ∈ s.inc
    · rw [if_pos (by simpa using hi)]
      exact disjoint_del_add s.inc s.exc tag h
    · rw [if_neg (by simpa using hi)]
      exact disjoint_same_add s.inc s.exc tag hi h

theorem handleTagClickV2_disjoint (ty : TagListKind) (ck : Bool) (tag : String)
    (s : TagSelState) (h : disjointTags s = true)
    (hen : wizardOpEnabled (.clickV2 ty ck tag) s) :
    disjointTags (handleTagClickV2 ty ck tag s) = true := by
  rw [disjoint_iff] at h ⊢
  cases ty <;> cases ck <;>
    simp only [handleTagClickV2] <;>
    simp only [wizardOpEnabled] at hen
  · exact disjoint_del_left s.inc s.exc tag h
  · exact disjoint_add_same s.inc s.exc tag hen h
  · exact disjoint_del_right s.inc s.exc tag h
  · exact disjoint_same_add s.inc s.exc tag hen h

theorem massStepV2_disjoint (ty : TagListKind) (sel : Bool) (s : TagSelState)
    (tag : String) (h : disjointTags s = true) :
    disjointTags (massStepV2 ty sel s tag) = true := by
  rw [disjoint_iff] at h ⊢
  cases sel <;> cases ty <;> simp only [massStepV2, Bool.false_eq_true,
    if_false, if_true]
  · exact disjoint_del_left s.inc s.exc tag h
  · exact disjoint_del_right s.inc s.exc tag h
  · by_cases he : tag ∈ s.exc
    · rw [if_pos (by simpa using he)]
      exact h
    · rw [if_neg (by simpa using he)]
      exact disjoint_add_same s.inc s.exc tag he h
  · by_cases hi : tag ∈ s.inc
    · rw [if_pos (by simpa using hi)]
      exact h
    · rw [if_neg (by simpa using hi)]
      exact disjoint_same_add s.inc s.exc tag hi h

theorem massStepV1_eq_cleanup (ty : TagListKind) (sel : Bool) (s : TagSelState)
    (tag : String) :
    massStepV1 ty sel s tag =
      (match ty with
       | .incl =>
           if decide (tag ∈ (massStepV2 ty sel s tag).inc)
               && decide (tag ∈ (massStepV2 ty sel s tag).exc) then
             { massStepV2 ty sel s tag with
                exc := setDelete (massStepV2 ty sel s tag).exc tag }
           else massStepV2 ty sel s tag
       | .excl =>
           if decide (tag ∈ (massStepV2 ty sel s tag).exc)
               && decide (tag ∈ (massStepV2 ty sel s tag).inc) then
             { massStepV2 ty sel s tag with
                inc := setDelete (massStepV2 ty sel s tag).inc tag }
           else massStepV2 ty sel s tag) := by
  cases ty <;> rfl

theorem massStepV1_disjoint (ty : TagListKind) (sel : Bool) (s : TagSelState)
    (tag : String) (h : disjointTags s = true) :
    disjointTags (massStepV1 ty sel s tag) = true := by
  have h1 : disjointTags (massStepV2 ty sel s tag) = true :=
    massStepV2_disjoint ty sel s tag h
  rw [massStepV1_eq_cleanup]
  cases ty <;> dsimp only
  · split
    · rw [disjoint_iff] at h1 ⊢
      exact disjoint_del_right _ _ tag h1
    · exact h1
  · split
    · rw [disjoint_iff] at h1 ⊢
      exact disjoint_del_left _ _ tag h1
    · exact h1

theorem massUpdateTagsV1_disjoint (ty : TagListKind) (sel : Bool) :
    ∀ (visible : List String) (s : TagSelState), disjointTags s = true →
      disjointTags (massUpdateTagsV1 ty sel visible s) = true
  | [], _, h => h
  | v :: vs, s, h =>
    massUpdateTagsV1_disjoint ty sel vs (massStepV1 ty sel s v)
      (massStepV1_disjoint ty sel s v h)

theorem massUpdateTagsV2_disjoint (ty : TagListKind) (sel : Bool) :
    ∀ (visible : List String) (s : TagSelState), disjointTags s = true →
      disjointTags (massUpdateTagsV2 ty sel visible s) = true
  | [], _, h => h
  | v :: vs, s, h =>
    massUpdateTagsV2_disjoint ty sel vs (massStepV2 ty sel s v)
      (massStepV2_disjoint ty sel s v h)

/-- C9. Include/exclude disjointness invariant: every tag-selection
operation available in the wizard UI — a single enabled-checkbox toggle or
a mass select or deselect, in either WizardManager version — maps a state
whose include and exclude sets of a category are disjoint to a state where
they still are. -/
theorem wizard_disjoint_invariant (op : WizardOp) (s : TagSelState)
    (hdisj : disjointTags s = true) (hen : wizardOpEnabled op s) :
    disjointTags (applyWizardOp op s) = true := by
  cases op with
  | clickV1 ty ck tag => exact handleTagClickV1_disjoint ty ck tag s hdisj
  | massV1 ty sel vis => exact massUpdateTagsV1_disjoint ty sel vis s hdisj
  | clickV2 ty ck tag => exact handleTagClickV2_disjoint ty ck tag s hdisj hen
  | massV2 ty sel vis => exact massUpdateTagsV2_disjoint ty sel vis s hdisj

/-- C9 witness: checking the USA include checkbox in the second
WizardManager version, starting from a disjoint concrete state in which
USA is not excluded, leaves the sets disjoint. -/
theorem wizard_disjoint_invariant_witness :
    disjointTags (applyWizardOp (.clickV2 .incl true "USA")
      ⟨["Europe"], ["Japan"]⟩) = true :=
  wizard_disjoint_invariant (.clickV2 .incl true "USA")
    ⟨["Europe"], ["Japan"]⟩ (by decide)
    (by show ("USA" : String) ∉ ["Japan"]; decide)

end Myrient
